import Mathlib

/-!
Verification of the hotspot excerpt: `SourceCodeModel` (a Qt table model that
projects annotated source code and per-line cost data into a display grid) and
the `MainWindow` parse-lifecycle signal handlers, together with the
`formatTimeString` helper.  The C++ sources are shallowly embedded: Qt model
state becomes a record, member functions become state-passing functions,
`QVariant` becomes an inductive value, and the file system is an explicit
`String → Option String` map.  C++ `int` fields are embedded as `Int` (the
arithmetic performed on them never overflows for in-range values; `INT_MAX`
appears explicitly where the code uses it).
-/

/-- A `QVariant` as produced by the model code: either the invalid variant
`{}`, or a payload of one of the types the model actually returns. -/
inductive QVariant where
  | none
  | ofInt (i : Int)
  | ofString (s : String)
  | ofBool (b : Bool)
  | ofTextLine (lineNumber : Int)
  deriving DecidableEq

/-- The Qt item roles that `SourceCodeModel::data` and `headerData` inspect.
In C++ these are distinct integer constants (`Qt::DisplayRole`,
`Qt::ToolTipRole` and the custom roles of the model); only their identity
matters, so they are embedded as an inductive type with one extra
constructor `otherRole` for every unhandled role value. -/
inductive ItemRole where
  | displayRole
  | toolTipRole
  | fileNameRole
  | lineNumberRole
  | costRole
  | totalCostRole
  | syntaxHighlightRole
  | highlightRole
  | rainbowLineNumberRole
  | otherRole
  deriving DecidableEq

/-- `Qt::Orientation`. -/
inductive QtOrientation where
  | horizontal
  | vertical
  deriving DecidableEq

/-- A `QModelIndex` for a flat table model: row, column, and whether the
parent index is valid (the root parent is the invalid index). -/
structure QModelIndex where
  row : Int
  column : Int
  parentValid : Bool
  deriving DecidableEq

/-- C++ `INT_MAX`, used by `setDisassembly` to initialise the minimum line
number scan. -/
def INT_MAX : Int := 2147483647

/-- Modelled from the spec: `Data::Costs` (declared outside the provided
sources) is a table of already-computed costs: a list of cost-type names and
a lookup giving the cost of a type at an id, plus per-type totals.  The model
code only reads it through `numTypes`, `typeName`, `cost` and `totalCost`,
and fills it through `initializeCostsFrom` and `add`. -/
structure Costs where
  typeNames : List String
  costFn : Int → Int → Int
  totalFn : Int → Int

/-- The default-constructed `Data::Costs {}`: no types, all costs zero. -/
def Costs.empty : Costs :=
  { typeNames := [], costFn := fun _ _ => 0, totalFn := fun _ => 0 }

/-- `Data::Costs::numTypes()` (a C++ `int`). -/
def Costs.numTypes (c : Costs) : Int := (c.typeNames.length : Int)

/-- `Data::Costs::typeName(type)`. -/
def Costs.typeName (c : Costs) (t : Int) : String := c.typeNames.getD t.toNat ""

/-- `Data::Costs::cost(type, id)`. -/
def Costs.cost (c : Costs) (t id : Int) : Int := c.costFn t id

/-- `Data::Costs::totalCost(type)`. -/
def Costs.totalCost (c : Costs) (t : Int) : Int := c.totalFn t

/-- Modelled from the spec: `Data::Costs::initializeCostsFrom(other)` copies
the cost-type layout (names and totals) from `other` while starting with no
accumulated per-id costs. -/
def Costs.initCostsFrom (c : Costs) : Costs :=
  { typeNames := c.typeNames, costFn := fun _ _ => 0, totalFn := c.totalFn }

/-- Modelled from the spec: `Data::Costs::add(id, costs)` accumulates the
per-type cost vector `costs` onto the entry of `id`. -/
def Costs.add (c : Costs) (id : Int) (costs : List Int) : Costs :=
  { c with costFn := fun t i =>
      c.costFn t i + (if i = id then costs.getD t.toNat 0 else 0) }

/-- A `Data::Symbol` as used by the model: equality-comparable key with a
pretty-printed name. -/
structure DataSymbol where
  symbol : String
  binary : String
  prettySymbol : String
  deriving DecidableEq

/-- Modelled from the spec: a per-instruction `Data::LocationCost` with self
and inclusive cost vectors (one entry per cost type). -/
structure LocationCost where
  selfCost : List Int
  inclusiveCost : List Int
  deriving DecidableEq

/-- Modelled from the spec: the per-symbol entry of
`Data::CallerCalleeResults::entries`, exposing its `offsetMap` from
instruction address to `LocationCost`. -/
structure CalleeEntry where
  offsetMap : List (Nat × LocationCost)
  deriving DecidableEq

/-- Modelled from the spec: `Data::CallerCalleeResults`, holding the
pre-computed self and inclusive cost tables and the per-symbol entries. -/
structure CallerCalleeResults where
  selfCosts : Costs
  inclusiveCosts : Costs
  entries : List (DataSymbol × CalleeEntry)

/-- One `DisassemblyOutput::DisassemblyLine` field set used by
`setDisassembly`: instruction address, source file name, source line
(a C++ `int`; `0` marks "no line"). -/
structure DisassemblyLine where
  addr : Nat
  sourceFileName : String
  sourceCodeLine : Int
  deriving DecidableEq

/-- The `DisassemblyOutput` fields read by `setDisassembly`. -/
structure DisassemblyOutput where
  symbol : DataSymbol
  mainSourceFileName : String
  disassemblyLines : List DisassemblyLine
  deriving DecidableEq

/-- The state of a `SourceCodeModel`: the text document (as a list of line
strings), the two cost tables, and the scalar members of the class. -/
structure SourceCodeModel where
  document : List String
  selfCosts : Costs
  inclusiveCosts : Costs
  numLines : Int
  validLineNumbers : List Int
  lineOffset : Int
  startLine : Int
  mainSourceFileName : String
  highlightLine : Int
  sysroot : String
  highlighterDefinitionFile : String

/-- `Columns::SourceCodeColumn` of the model's column enum. -/
def SourceCodeColumn : Int := 0

/-- `Columns::SourceCodeLineNumber` of the model's column enum. -/
def SourceCodeLineNumber : Int := 1

/-- `Columns::COLUMN_COUNT`: the number of fixed (non-cost) columns. -/
def COLUMN_COUNT : Int := 2

/-- `SourceCodeModel::clear()`: resets only the text document. -/
def SourceCodeModel.clear (m : SourceCodeModel) : SourceCodeModel :=
  { m with document := [] }

/-- `SourceCodeModel::rowCount(parent)`. -/
def SourceCodeModel.rowCount (m : SourceCodeModel) (parentValid : Bool) : Int :=
  if parentValid then 0 else m.numLines

/-- `SourceCodeModel::columnCount(parent)`. -/
def SourceCodeModel.columnCount (m : SourceCodeModel) (parentValid : Bool) : Int :=
  if parentValid then 0
  else COLUMN_COUNT + m.selfCosts.numTypes + m.inclusiveCosts.numTypes

/-- `QAbstractItemModel::hasIndex(row, column, parent)`: the bounds check Qt
performs against `rowCount`/`columnCount` of the parent. -/
def SourceCodeModel.hasIndex (m : SourceCodeModel) (row col : Int)
    (parentValid : Bool) : Bool :=
  decide (0 ≤ row) && decide (row < m.rowCount parentValid) &&
  decide (0 ≤ col) && decide (col < m.columnCount parentValid)

/-- `SourceCodeModel::lineForIndex(index)`. -/
def SourceCodeModel.lineForIndex (m : SourceCodeModel) (index : QModelIndex) : Int :=
  index.row + m.lineOffset

/-- `SourceCodeModel::setSysroot(sysroot)`. -/
def SourceCodeModel.setSysroot (m : SourceCodeModel) (sysroot : String) : SourceCodeModel :=
  { m with sysroot := sysroot }

/-- Modelled from the spec: `Util::formatCostRelative(cost, total, true)` is
outside the provided sources; it renders a cost as a percentage text.  No
claim depends on its value, only on where `data` applies it. -/
def formatCostRelative (cost totalCost : Int) (addPercent : Bool) : String :=
  toString cost ++ "/" ++ toString totalCost ++ (if addPercent then "%" else "")

/-- `SourceCodeModel::headerData(section, orientation, role)`. -/
def SourceCodeModel.headerData (m : SourceCodeModel) (sec : Int)
    (orientation : QtOrientation) (role : ItemRole) : QVariant :=
  if sec < 0 ∨ sec ≥ COLUMN_COUNT + m.selfCosts.numTypes + m.inclusiveCosts.numTypes then
    .none
  else if role ≠ .displayRole ∨ orientation ≠ .horizontal then
    .none
  else if sec = SourceCodeColumn then
    .ofString "Source Code"
  else if sec = SourceCodeLineNumber then
    .ofString "Line"
  else if sec - COLUMN_COUNT < m.selfCosts.numTypes then
    .ofString (m.selfCosts.typeName (sec - COLUMN_COUNT) ++ " (self)")
  else
    .ofString (m.inclusiveCosts.typeName (sec - COLUMN_COUNT - m.selfCosts.numTypes) ++ " (incl.)")

/-- `SourceCodeModel::data(index, role)`.  `m_document->findBlockByLineNumber`
yields a valid block exactly when the requested line number is in range of the
document's lines; the `QTextLine` returned under `SyntaxHighlightRole` is
embedded as the line number it lays out. -/
def SourceCodeModel.data (m : SourceCodeModel) (index : QModelIndex)
    (role : ItemRole) : QVariant :=
  if ¬ m.hasIndex index.row index.column index.parentValid then .none
  else if index.row > m.numLines ∨ index.row < 0 then .none
  else
    match role with
    | .fileNameRole => .ofString m.mainSourceFileName
    | .lineNumberRole => .ofInt (index.row + m.lineOffset)
    | .displayRole | .toolTipRole | .costRole | .totalCostRole | .syntaxHighlightRole =>
      if index.column = SourceCodeColumn then
        if ¬ (0 ≤ index.row + m.startLine ∧
              index.row + m.startLine < (m.document.length : Int)) then .none
        else if role = .syntaxHighlightRole then
          .ofTextLine (index.row + m.startLine)
        else
          .ofString (m.document.getD (index.row + m.startLine).toNat "")
      else if index.column = SourceCodeLineNumber then
        .ofInt (index.row + m.lineOffset)
      else
        let id := index.row + m.lineOffset
        let cost := fun (type : Int) (costs : Costs) =>
          if role = .costRole then QVariant.ofInt (costs.cost type id)
          else if role = .totalCostRole then QVariant.ofInt (costs.totalCost type)
          else QVariant.ofString (formatCostRelative (costs.cost type id) (costs.totalCost type) true)
        let column := index.column - COLUMN_COUNT
        if column < m.selfCosts.numTypes then cost column m.selfCosts
        else cost (column - m.selfCosts.numTypes) m.inclusiveCosts
    | .highlightRole => .ofBool (decide (index.row + m.lineOffset = m.highlightLine))
    | .rainbowLineNumberRole =>
      let line := index.row + m.lineOffset
      if m.validLineNumbers.contains line then .ofInt line else .ofInt (-1)
    | .otherRole => .none

/-- Lookup of `results.entries.find(symbol)` in the per-symbol hash. -/
def findEntry (entries : List (DataSymbol × CalleeEntry)) (s : DataSymbol) :
    Option CalleeEntry :=
  (entries.find? (fun e => decide (e.1 = s))).map (fun e => e.2)

/-- Lookup of `entry->offsetMap.find(addr)`. -/
def findOffset (offsetMap : List (Nat × LocationCost)) (addr : Nat) :
    Option LocationCost :=
  (offsetMap.find? (fun e => decide (e.1 = addr))).map (fun e => e.2)

/-- `QSet::insert` on the set of valid line numbers (membership is all the
model reads from it). -/
def insertLineNumber (s : List Int) (v : Int) : List Int :=
  if s.contains v then s else v :: s

/-- The `maxLineNumber`/`minLineNumber` update performed by one iteration of
the `setDisassembly` loop: a line is skipped when its `sourceCodeLine` is `0`
or its `sourceFileName` differs from the main source file; otherwise the
running maximum (first component) and minimum (second component) are
updated. -/
def minMaxStep (main : String) (acc : Int × Int) (l : DisassemblyLine) : Int × Int :=
  if l.sourceCodeLine = 0 ∨ l.sourceFileName ≠ main then acc
  else
    ((if l.sourceCodeLine > acc.1 then l.sourceCodeLine else acc.1),
     (if l.sourceCodeLine < acc.2 then l.sourceCodeLine else acc.2))

/-- The `(maxLineNumber, minLineNumber)` pair computed by the loop over
`disassemblyLines` in `setDisassembly`, starting from `(0, INT_MAX)`. -/
def scanMinMax (main : String) (lines : List DisassemblyLine) : Int × Int :=
  lines.foldl (minMaxStep main) (0, INT_MAX)

/-- The `Q_ASSERT(minLineNumber > 0)` and
`Q_ASSERT(minLineNumber < maxLineNumber)` checks after the loop in
`setDisassembly`. -/
def setDisassemblyAssertions (d : DisassemblyOutput) : Bool :=
  let mm := scanMinMax d.mainSourceFileName d.disassemblyLines
  decide (mm.2 > 0) && decide (mm.2 < mm.1)

/-- The cost accumulation of one `setDisassembly` loop iteration: when the
symbol has an entry in `results` and that entry's offset map knows the line's
address, the location's self and inclusive costs are added to the model's
cost tables under the line's source line number. -/
def costUpdate (results : CallerCalleeResults) (symbol : DataSymbol)
    (m : SourceCodeModel) (l : DisassemblyLine) : SourceCodeModel :=
  match findEntry results.entries symbol with
  | Option.some entry =>
    match findOffset entry.offsetMap l.addr with
    | Option.some locationCost =>
      { m with selfCosts := m.selfCosts.add l.sourceCodeLine locationCost.selfCost,
               inclusiveCosts := m.inclusiveCosts.add l.sourceCodeLine locationCost.inclusiveCost }
    | Option.none => m
  | Option.none => m

/-- One iteration of the `setDisassembly` loop: alongside the min/max scan it
accumulates the location costs of the line and inserts the line number into
`m_validLineNumbers`. -/
def lineStep (main : String) (results : CallerCalleeResults) (symbol : DataSymbol)
    (acc : (Int × Int) × SourceCodeModel) (l : DisassemblyLine) :
    (Int × Int) × SourceCodeModel :=
  if l.sourceCodeLine = 0 ∨ l.sourceFileName ≠ main then acc
  else
    let m := costUpdate results symbol acc.2 l
    (minMaxStep main acc.1 l,
     { m with validLineNumbers := insertLineNumber m.validLineNumbers l.sourceCodeLine })

/-- The `QTextCursor` edit at the end of `setDisassembly`: the line at
`m_startLine` of the document is replaced by the pretty symbol name (a no-op
when that line does not exist). -/
def replaceLine (doc : List String) (i : Int) (text : String) : List String :=
  if i < 0 then doc else doc.set i.toNat text

/-- `SourceCodeModel::setDisassembly(disassemblyOutput, results)`.  The file
system is passed explicitly as `fs`, mapping a path to its contents when the
file can be opened; `QDir::separator()` is `/`.  The `QTextDocument` receives
the file contents split into lines; layout calls (`setTextWidth`) have no
observable effect on the model state and are omitted. -/
def SourceCodeModel.setDisassembly (m : SourceCodeModel)
    (fs : String → Option String) (d : DisassemblyOutput)
    (results : CallerCalleeResults) : SourceCodeModel :=
  let m := { m with selfCosts := Costs.empty, inclusiveCosts := Costs.empty,
                    numLines := 0 }
  if d.mainSourceFileName = "" then m
  else
    match fs (m.sysroot ++ "/" ++ d.mainSourceFileName) with
    | Option.none => m
    | Option.some sourceCode =>
      let m := { m with validLineNumbers := [],
                        selfCosts := results.selfCosts.initCostsFrom,
                        inclusiveCosts := results.inclusiveCosts.initCostsFrom,
                        mainSourceFileName := d.mainSourceFileName,
                        document := sourceCode.splitOn "\n",
                        highlighterDefinitionFile := d.mainSourceFileName }
      let folded := d.disassemblyLines.foldl (lineStep d.mainSourceFileName results d.symbol)
        ((0, INT_MAX), m)
      let minLineNumber := folded.1.2
      let maxLineNumber := folded.1.1
      let m := folded.2
      let startLine := minLineNumber - 2
      { m with startLine := startLine,
               lineOffset := minLineNumber - 1,
               numLines := maxLineNumber - startLine,
               document := replaceLine m.document startLine d.symbol.prettySymbol }

/-- The pages of the main window's `mainPageStack`. -/
inductive Page where
  | startPage
  | resultsPage
  deriving DecidableEq

/-- The tabs of the main window's `resultsTabWidget`. -/
inductive Tab where
  | summaryTab
  | bottomUpTab
  | topDownTab
  | flameGraphTab
  deriving DecidableEq

/-- The `MainWindow` UI state read and written by the parse-lifecycle
handlers: current page of the stack, current results tab, visibility of the
progress bar and the two loading labels, and the error label's text. -/
structure MainWindow where
  mainPageStackCurrent : Page
  resultsTabCurrent : Tab
  openFileProgressBarVisible : Bool
  loadingResultsLabelVisible : Bool
  loadingResultsErrorLabelVisible : Bool
  loadingResultsErrorLabelText : String
  deriving DecidableEq

/-- `MainWindow::hideLoadingResults()`. -/
def MainWindow.hideLoadingResults (w : MainWindow) : MainWindow :=
  { w with openFileProgressBarVisible := false,
           loadingResultsLabelVisible := false }

/-- `MainWindow::showLoadingResults()`. -/
def MainWindow.showLoadingResults (w : MainWindow) : MainWindow :=
  { w with openFileProgressBarVisible := true,
           loadingResultsLabelVisible := true,
           loadingResultsErrorLabelVisible := false }

/-- The lambda connected to `PerfParser::parsingFinished`: switch the stack to
the results page, make the summary tab current, and hide the loading UI. -/
def MainWindow.onParsingFinished (w : MainWindow) : MainWindow :=
  let w := { w with mainPageStackCurrent := Page.resultsPage }
  let w := { w with resultsTabCurrent := Tab.summaryTab }
  w.hideLoadingResults

/-- The lambda connected to `PerfParser::parsingFailed`: hide the loading UI,
then put the error message into the error label and show it (the `qWarning`
log line has no UI effect). -/
def MainWindow.onParsingFailed (w : MainWindow) (errorMessage : String) : MainWindow :=
  let w := w.hideLoadingResults
  { w with loadingResultsErrorLabelText := errorMessage,
           loadingResultsErrorLabelVisible := true }

/-- `QString::number(fragment)`. -/
def qtNumber (n : Nat) : String := Nat.repr n

/-- `QString::rightJustified(width, fill)`: pad on the left with `fill` up to
`width` characters (strings already that long are returned unchanged). -/
def rightJustified (s : String) (width : Nat) (fill : Char) : String :=
  if width ≤ s.length then s
  else String.mk (List.replicate (width - s.length) fill) ++ s

/-- `formatTimeString(nanoseconds)` from mainwindow.cpp: split a `quint64`
nanosecond count into days/hours/minutes/seconds/milliseconds, print each of
the first three only when it is non-zero (followed by a colon), then the
two-digit seconds, a dot, the three-digit milliseconds and `s`. -/
def formatTimeString (nanoseconds : Nat) : String :=
  let totalSeconds := nanoseconds / 1000000000
  let days := totalSeconds / 60 / 60 / 24
  let hours := (totalSeconds / 60 / 60) % 24
  let minutes := (totalSeconds / 60) % 60
  let seconds := totalSeconds % 60
  let milliseconds := (nanoseconds / 1000000) % 1000
  let format := fun (fragment : Nat) (precision : Nat) =>
    rightJustified (qtNumber fragment) precision '0'
  let optional := fun (fragment : Nat) =>
    if fragment > 0 then format fragment 2 ++ ":" else ""
  optional days ++ optional hours ++ optional minutes ++
    format seconds 2 ++ "." ++ format milliseconds 3 ++ "s"

/-- The `m_validLineNumbers` update performed by one `setDisassembly` loop
iteration, in isolation. -/
def validStep (main : String) (acc : List Int) (l : DisassemblyLine) : List Int :=
  if l.sourceCodeLine = 0 ∨ l.sourceFileName ≠ main then acc
  else insertLineNumber acc l.sourceCodeLine

/-- The source line numbers of the disassembly lines that the
`setDisassembly` loop does not skip: nonzero line number, main source file. -/
def matchingLineNumbers (main : String) (ls : List DisassemblyLine) : List Int :=
  (ls.filter (fun l => !(decide (l.sourceCodeLine = 0)) && decide (l.sourceFileName = main))).map
    (fun l => l.sourceCodeLine)

/-- Running minimum of a list of integers, as `setDisassembly` computes it. -/
def foldMin (p : Int) (vs : List Int) : Int :=
  vs.foldl (fun a v => if v < a then v else a) p

/-- Running maximum of a list of integers, as `setDisassembly` computes it. -/
def foldMax (p : Int) (vs : List Int) : Int :=
  vs.foldl (fun a v => if v > a then v else a) p

/-- The condition of claim C4 as stated: the disassembly contains at least
two lines of the main source file with distinct positive source line
numbers. -/
def twoDistinctPositiveLines (d : DisassemblyOutput) : Prop :=
  ∃ l1 ∈ d.disassemblyLines, ∃ l2 ∈ d.disassemblyLines,
    l1.sourceFileName = d.mainSourceFileName ∧
    l2.sourceFileName = d.mainSourceFileName ∧
    0 < l1.sourceCodeLine ∧ 0 < l2.sourceCodeLine ∧
    l1.sourceCodeLine ≠ l2.sourceCodeLine

/-- A concrete self-cost table used to instantiate the theorems. -/
def testCosts : Costs :=
  { typeNames := ["cycles", "instructions"],
    costFn := fun t i => 10 * t + i,
    totalFn := fun t => 100 + t }

/-- A concrete inclusive-cost table used to instantiate the theorems. -/
def testCostsIncl : Costs :=
  { typeNames := ["cycles", "instructions"],
    costFn := fun t i => 20 * t + 2 * i,
    totalFn := fun t => 200 + t }

/-- A concrete populated model state used to instantiate the theorems. -/
def testModel : SourceCodeModel :=
  { document := ["alpha", "beta", "gamma", "delta", "epsilon", "zeta", "eta"],
    selfCosts := testCosts,
    inclusiveCosts := testCostsIncl,
    numLines := 3,
    validLineNumbers := [5, 7],
    lineOffset := 4,
    startLine := 3,
    mainSourceFileName := "main.cpp",
    highlightLine := 5,
    sysroot := "/root",
    highlighterDefinitionFile := "main.cpp" }

/-- A concrete symbol for the disassembly fixtures. -/
def testSymbol : DataSymbol :=
  { symbol := "main", binary := "app", prettySymbol := "main()" }

/-- Concrete caller/callee results for the disassembly fixtures. -/
def testResults : CallerCalleeResults :=
  { selfCosts := testCosts,
    inclusiveCosts := testCostsIncl,
    entries := [(testSymbol, { offsetMap := [(100, { selfCost := [1, 2], inclusiveCost := [3, 4] })] })] }

/-- A disassembly output whose lines cover source lines 3 and 5 of `a.c`. -/
def goodOutput : DisassemblyOutput :=
  { symbol := testSymbol,
    mainSourceFileName := "a.c",
    disassemblyLines :=
      [ { addr := 100, sourceFileName := "a.c", sourceCodeLine := 3 },
        { addr := 104, sourceFileName := "other.c", sourceCodeLine := 9 },
        { addr := 108, sourceFileName := "a.c", sourceCodeLine := 0 },
        { addr := 112, sourceFileName := "a.c", sourceCodeLine := 5 } ] }

/-- A disassembly output with two distinct positive matching source lines and
additionally one negative matching source line. -/
def ceOutput : DisassemblyOutput :=
  { symbol := testSymbol,
    mainSourceFileName := "a.c",
    disassemblyLines :=
      [ { addr := 100, sourceFileName := "a.c", sourceCodeLine := -5 },
        { addr := 104, sourceFileName := "a.c", sourceCodeLine := 1 },
        { addr := 108, sourceFileName := "a.c", sourceCodeLine := 2 } ] }

/-- A file system containing the single file `/root/a.c`. -/
def testFs : String → Option String :=
  fun path => if path = "/root/a.c" then
    Option.some "one\ntwo\nthree\nfour\nfive\nsix" else Option.none

/-- C7: for every valid (non-root) parent `rowCount` and `columnCount` return
0; for the root (invalid) parent `rowCount` returns `m_numLines` and
`columnCount` returns `COLUMN_COUNT` plus the number of self-cost types plus
the number of inclusive-cost types. -/
theorem rowCount_columnCount_spec (m : SourceCodeModel) :
    m.rowCount true = 0 ∧ m.columnCount true = 0 ∧
    m.rowCount false = m.numLines ∧
    m.columnCount false = COLUMN_COUNT + m.selfCosts.numTypes + m.inclusiveCosts.numTypes :=
  ⟨rfl, rfl, rfl, rfl⟩

/-- C3: the `parsingFailed` handler puts the error message into the error
label and shows it, hides the progress bar and the loading label, and leaves
the main page stack's current widget unchanged. -/
theorem parsingFailed_handler_spec (w : MainWindow) (errorMessage : String) :
    (w.onParsingFailed errorMessage).loadingResultsErrorLabelText = errorMessage ∧
    (w.onParsingFailed errorMessage).loadingResultsErrorLabelVisible = true ∧
    (w.onParsingFailed errorMessage).openFileProgressBarVisible = false ∧
    (w.onParsingFailed errorMessage).loadingResultsLabelVisible = false ∧
    (w.onParsingFailed errorMessage).mainPageStackCurrent = w.mainPageStackCurrent :=
  ⟨rfl, rfl, rfl, rfl, rfl⟩

/-- C6: the `parsingFinished` handler switches the main page stack to the
results page, makes the summary tab current, and hides the progress bar and
the loading label. -/
theorem parsingFinished_handler_spec (w : MainWindow) :
    w.onParsingFinished.mainPageStackCurrent = Page.resultsPage ∧
    w.onParsingFinished.resultsTabCurrent = Tab.summaryTab ∧
    w.onParsingFinished.openFileProgressBarVisible = false ∧
    w.onParsingFinished.loadingResultsLabelVisible = false :=
  ⟨rfl, rfl, rfl, rfl⟩

/-- C5: `clear()` empties only the text document; every other member is
untouched, `rowCount` for the root parent still returns the pre-clear line
count, and `data` is unchanged for the line-number role and for every column
other than the source-code column. -/
theorem clear_frame_spec (m : SourceCodeModel) (index : QModelIndex) (role : ItemRole) :
    m.clear.document = [] ∧
    m.clear.numLines = m.numLines ∧
    m.clear.selfCosts = m.selfCosts ∧
    m.clear.inclusiveCosts = m.inclusiveCosts ∧
    m.clear.validLineNumbers = m.validLineNumbers ∧
    m.clear.lineOffset = m.lineOffset ∧
    m.clear.startLine = m.startLine ∧
    m.clear.mainSourceFileName = m.mainSourceFileName ∧
    m.clear.rowCount false = m.rowCount false ∧
    m.clear.data index ItemRole.lineNumberRole = m.data index ItemRole.lineNumberRole ∧
    (index.column ≠ SourceCodeColumn → m.clear.data index role = m.data index role) := by
  refine ⟨rfl, rfl, rfl, rfl, rfl, rfl, rfl, rfl, rfl, rfl, ?_⟩
  intro hcol
  cases role <;>
    simp [SourceCodeModel.data, SourceCodeModel.clear, SourceCodeModel.hasIndex,
      SourceCodeModel.rowCount, SourceCodeModel.columnCount, hcol]

/-- Witness for C5 at a concrete model, index and role. -/
theorem clear_frame_spec_witness :
    (⟨1, 2, false⟩ : QModelIndex).column ≠ SourceCodeColumn ∧
    testModel.clear.data ⟨1, 2, false⟩ ItemRole.costRole =
      testModel.data ⟨1, 2, false⟩ ItemRole.costRole :=
  ⟨by decide, (clear_frame_spec testModel ⟨1, 2, false⟩ ItemRole.costRole).2.2.2.2.2.2.2.2.2.2 (by decide)⟩

/-- C1: for every index accepted by `hasIndex`, `data` is a direct
re-indexing: `LineNumberRole` (and `DisplayRole` on the line-number column)
returns `row + m_lineOffset`, the value `lineForIndex` returns; and a cost
column `c ≥ COLUMN_COUNT` under `CostRole` returns
`m_selfCosts.cost(c - COLUMN_COUNT, row + m_lineOffset)` when
`c - COLUMN_COUNT < m_selfCosts.numTypes()` and the corresponding inclusive
cost otherwise, so all self-cost columns precede all inclusive-cost
columns. -/
theorem data_reindexing_spec (m : SourceCodeModel) (index : QModelIndex)
    (hidx : m.hasIndex index.row index.column index.parentValid = true) :
    m.data index ItemRole.lineNumberRole = QVariant.ofInt (index.row + m.lineOffset) ∧
    m.lineForIndex index = index.row + m.lineOffset ∧
    (index.column = SourceCodeLineNumber →
      m.data index ItemRole.displayRole = QVariant.ofInt (index.row + m.lineOffset)) ∧
    (COLUMN_COUNT ≤ index.column →
      m.data index ItemRole.costRole =
        if index.column - COLUMN_COUNT < m.selfCosts.numTypes then
          QVariant.ofInt
            (m.selfCosts.cost (index.column - COLUMN_COUNT) (index.row + m.lineOffset))
        else
          QVariant.ofInt
            (m.inclusiveCosts.cost (index.column - COLUMN_COUNT - m.selfCosts.numTypes)
              (index.row + m.lineOffset))) := by
  have hidx2 := hidx
  simp only [SourceCodeModel.hasIndex, Bool.and_eq_true, decide_eq_true_eq] at hidx2
  obtain ⟨⟨⟨hr0, hr1⟩, hc0⟩, hc1⟩ := hidx2
  have hpv : index.parentValid = false := by
    cases hpv : index.parentValid
    · rfl
    · rw [hpv] at hr1
      simp [SourceCodeModel.rowCount] at hr1
      omega
  rw [hpv, SourceCodeModel.rowCount, if_neg (by simp)] at hr1
  have hguard : ¬ (index.row > m.numLines ∨ index.row < 0) := by omega
  refine ⟨?_, rfl, ?_, ?_⟩
  · simp [SourceCodeModel.data, hidx, hguard]
  · intro hcol
    have hne0 : ¬ (index.column = SourceCodeColumn) := by
      rw [hcol]; decide
    simp only [SourceCodeModel.data]
    rw [if_neg (not_not_intro hidx), if_neg hguard]
    rw [if_neg hne0, if_pos hcol]
  · intro hcol
    have hne0 : ¬ (index.column = SourceCodeColumn) := by
      simp only [SourceCodeColumn]; simp only [COLUMN_COUNT] at hcol; omega
    have hne1 : ¬ (index.column = SourceCodeLineNumber) := by
      simp only [SourceCodeLineNumber]; simp only [COLUMN_COUNT] at hcol; omega
    simp only [SourceCodeModel.data]
    rw [if_neg (not_not_intro hidx), if_neg hguard]
    rw [if_neg hne0, if_neg hne1]
    split_ifs with h <;> rfl

/-- Witness for C1 at a concrete model and index (a self-cost column: column
3 is self-cost type 1, row 1 maps to line id 5, whose cost is 15). -/
theorem data_reindexing_spec_witness :
    testModel.data ⟨1, 3, false⟩ ItemRole.costRole = QVariant.ofInt 15 := by
  have h := (data_reindexing_spec testModel ⟨1, 3, false⟩ (by decide)).2.2.2 (by decide)
  rw [h]
  rfl

/-- C9: `headerData` returns a non-empty value exactly for `DisplayRole`,
horizontal orientation, and a section within
`COLUMN_COUNT + numSelfTypes + numInclusiveTypes`; section 0 is
"Source Code", section 1 is "Line", the next `numSelfTypes` sections are the
self-cost type names suffixed " (self)" in order, and the remaining sections
are the inclusive-cost type names suffixed " (incl.)" in order. -/
theorem headerData_spec (m : SourceCodeModel) (sec : Int)
    (orientation : QtOrientation) (role : ItemRole) :
    (m.headerData sec orientation role ≠ QVariant.none ↔
      role = ItemRole.displayRole ∧ orientation = QtOrientation.horizontal ∧
      0 ≤ sec ∧ sec < COLUMN_COUNT + m.selfCosts.numTypes + m.inclusiveCosts.numTypes) ∧
    m.headerData 0 QtOrientation.horizontal ItemRole.displayRole =
      QVariant.ofString "Source Code" ∧
    m.headerData 1 QtOrientation.horizontal ItemRole.displayRole =
      QVariant.ofString "Line" ∧
    (COLUMN_COUNT ≤ sec → sec - COLUMN_COUNT < m.selfCosts.numTypes →
      m.headerData sec QtOrientation.horizontal ItemRole.displayRole =
        QVariant.ofString (m.selfCosts.typeName (sec - COLUMN_COUNT) ++ " (self)")) ∧
    (COLUMN_COUNT + m.selfCosts.numTypes ≤ sec →
     sec < COLUMN_COUNT + m.selfCosts.numTypes + m.inclusiveCosts.numTypes →
      m.headerData sec QtOrientation.horizontal ItemRole.displayRole =
        QVariant.ofString
          (m.inclusiveCosts.typeName (sec - COLUMN_COUNT - m.selfCosts.numTypes) ++ " (incl.)")) := by
  have htypes0 : (0 : Int) ≤ m.selfCosts.numTypes := Int.ofNat_nonneg _
  have htypes1 : (0 : Int) ≤ m.inclusiveCosts.numTypes := Int.ofNat_nonneg _
  refine ⟨?_, ?_, ?_, ?_, ?_⟩
  · by_cases hg1 : sec < 0 ∨ sec ≥ COLUMN_COUNT + m.selfCosts.numTypes + m.inclusiveCosts.numTypes
    · have hval : m.headerData sec orientation role = QVariant.none := by
        unfold SourceCodeModel.headerData
        rw [if_pos hg1]
      refine iff_of_false (by rw [hval]; simp) ?_
      rintro ⟨-, -, h3, h4⟩
      rcases hg1 with h | h <;> omega
    · push_neg at hg1
      by_cases hg2 : role ≠ ItemRole.displayRole ∨ orientation ≠ QtOrientation.horizontal
      · have hval : m.headerData sec orientation role = QVariant.none := by
          unfold SourceCodeModel.headerData
          rw [if_neg (by push_neg; exact ⟨hg1.1, hg1.2⟩), if_pos hg2]
        refine iff_of_false (by rw [hval]; simp) ?_
        rintro ⟨h1, h2, -, -⟩
        rcases hg2 with h | h
        · exact h h1
        · exact h h2
      · push_neg at hg2
        refine iff_of_true ?_ ⟨hg2.1, hg2.2, hg1.1, hg1.2⟩
        unfold SourceCodeModel.headerData
        rw [if_neg (by push_neg; exact ⟨hg1.1, hg1.2⟩), if_neg (by push_neg; exact hg2)]
        split_ifs <;> simp
  · unfold SourceCodeModel.headerData
    rw [if_neg (by simp only [COLUMN_COUNT]; omega), if_neg (by simp)]
    rfl
  · unfold SourceCodeModel.headerData
    rw [if_neg (by simp only [COLUMN_COUNT]; omega), if_neg (by simp)]
    rfl
  · intro h1 h2
    have hg1 : ¬ (sec < 0 ∨ sec ≥ COLUMN_COUNT + m.selfCosts.numTypes + m.inclusiveCosts.numTypes) := by
      simp only [COLUMN_COUNT] at h1 h2 ⊢
      omega
    have hne0 : ¬ (sec = SourceCodeColumn) := by
      simp only [SourceCodeColumn]
      simp only [COLUMN_COUNT] at h1
      omega
    have hne1 : ¬ (sec = SourceCodeLineNumber) := by
      simp only [SourceCodeLineNumber]
      simp only [COLUMN_COUNT] at h1
      omega
    unfold SourceCodeModel.headerData
    rw [if_neg hg1, if_neg (by simp), if_neg hne0, if_neg hne1, if_pos h2]
  · intro h1 h2
    have hg1 : ¬ (sec < 0 ∨ sec ≥ COLUMN_COUNT + m.selfCosts.numTypes + m.inclusiveCosts.numTypes) := by
      simp only [COLUMN_COUNT] at h1 h2 ⊢
      omega
    have hne0 : ¬ (sec = SourceCodeColumn) := by
      simp only [SourceCodeColumn]
      simp only [COLUMN_COUNT] at h1
      omega
    have hne1 : ¬ (sec = SourceCodeLineNumber) := by
      simp only [SourceCodeLineNumber]
      simp only [COLUMN_COUNT] at h1
      omega
    have hge : ¬ (sec - COLUMN_COUNT < m.selfCosts.numTypes) := by
      simp only [COLUMN_COUNT] at h1 ⊢
      omega
    unfold SourceCodeModel.headerData
    rw [if_neg hg1, if_neg (by simp), if_neg hne0, if_neg hne1, if_neg hge]

/-- Witness for C9: the first self-cost header of the concrete model. -/
theorem headerData_spec_witness :
    testModel.headerData 2 QtOrientation.horizontal ItemRole.displayRole =
      QVariant.ofString "cycles (self)" := by
  have h := (headerData_spec testModel 2 QtOrientation.horizontal
    ItemRole.displayRole).2.2.2.1 (by decide) (by decide)
  rw [h]
  rfl

/-- The cost accumulation of a loop iteration leaves `m_validLineNumbers`
unchanged. -/
theorem costUpdate_validLineNumbers (results : CallerCalleeResults)
    (symbol : DataSymbol) (m : SourceCodeModel) (l : DisassemblyLine) :
    (costUpdate results symbol m l).validLineNumbers = m.validLineNumbers := by
  unfold costUpdate
  split
  · split <;> rfl
  · rfl

/-- One loop iteration changes `m_validLineNumbers` exactly as `validStep`
does. -/
theorem lineStep_validLineNumbers (main : String) (results : CallerCalleeResults)
    (symbol : DataSymbol) (acc : (Int × Int) × SourceCodeModel) (l : DisassemblyLine) :
    (lineStep main results symbol acc l).2.validLineNumbers =
      validStep main acc.2.validLineNumbers l := by
  unfold lineStep validStep
  by_cases h : l.sourceCodeLine = 0 ∨ l.sourceFileName ≠ main
  · rw [if_pos h, if_pos h]
  · rw [if_neg h, if_neg h]
    show insertLineNumber (costUpdate results symbol acc.2 l).validLineNumbers _ = _
    rw [costUpdate_validLineNumbers]

/-- Projection of the `setDisassembly` fold onto `m_validLineNumbers`. -/
theorem foldl_lineStep_validLineNumbers (main : String)
    (results : CallerCalleeResults) (symbol : DataSymbol)
    (ls : List DisassemblyLine) :
    ∀ acc : (Int × Int) × SourceCodeModel,
      (ls.foldl (lineStep main results symbol) acc).2.validLineNumbers =
        ls.foldl (validStep main) acc.2.validLineNumbers := by
  induction ls with
  | nil => intro acc; rfl
  | cons l ls ih =>
    intro acc
    rw [List.foldl_cons, List.foldl_cons, ih, lineStep_validLineNumbers]

/-- Membership in `insertLineNumber`. -/
theorem mem_insertLineNumber (s : List Int) (v w : Int) :
    w ∈ insertLineNumber s v ↔ w = v ∨ w ∈ s := by
  unfold insertLineNumber
  by_cases h : s.contains v
  · rw [if_pos h]
    have hv : v ∈ s := by simpa using h
    constructor
    · intro hw
      exact Or.inr hw
    · rintro (rfl | hw)
      · exact hv
      · exact hw
  · rw [if_neg h]
    simp [List.mem_cons]

/-- Membership in the line-number set accumulated by the `setDisassembly`
loop: a value is collected exactly when some disassembly line of the main
source file carries it as a nonzero source line number (or it was already in
the accumulator). -/
theorem mem_foldl_validStep (main : String) (ls : List DisassemblyLine) :
    ∀ (acc : List Int) (v : Int),
      v ∈ ls.foldl (validStep main) acc ↔
        v ∈ acc ∨ ∃ l ∈ ls, l.sourceCodeLine ≠ 0 ∧ l.sourceFileName = main ∧
          l.sourceCodeLine = v := by
  induction ls with
  | nil =>
    intro acc v
    simp
  | cons l ls ih =>
    intro acc v
    rw [List.foldl_cons]
    rw [ih]
    rw [List.exists_mem_cons_iff]
    unfold validStep
    by_cases h : l.sourceCodeLine = 0 ∨ l.sourceFileName ≠ main
    · rw [if_pos h]
      constructor
      · rintro (hv | hv)
        · exact Or.inl hv
        · exact Or.inr (Or.inr hv)
      · rintro (hv | ⟨h1, h2, h3⟩ | hv)
        · exact Or.inl hv
        · rcases h with h | h
          · exact absurd h h1
          · exact absurd h2 h
        · exact Or.inr hv
    · rw [if_neg h]
      rw [mem_insertLineNumber]
      push_neg at h
      constructor
      · rintro ((rfl | hv) | hv)
        · exact Or.inr (Or.inl ⟨h.1, h.2, rfl⟩)
        · exact Or.inl hv
        · exact Or.inr (Or.inr hv)
      · rintro (hv | ⟨-, -, h3⟩ | hv)
        · exact Or.inl (Or.inr hv)
        · exact Or.inl (Or.inl h3.symm)
        · exact Or.inr hv

/-- C8: for every in-range index, `RainbowLineNumberRole` returns
`row + m_lineOffset` when that line number is in `m_validLineNumbers` and
`-1` otherwise; and after a successful `setDisassembly`, `m_validLineNumbers`
holds exactly the nonzero `sourceCodeLine` values of the disassembly lines of
the main source file. -/
theorem rainbowLineNumber_spec (m : SourceCodeModel) (index : QModelIndex)
    (fs : String → Option String) (d : DisassemblyOutput)
    (results : CallerCalleeResults) (v : Int)
    (hidx : m.hasIndex index.row index.column index.parentValid = true) :
    (m.data index ItemRole.rainbowLineNumberRole =
      if m.validLineNumbers.contains (index.row + m.lineOffset) then
        QVariant.ofInt (index.row + m.lineOffset)
      else QVariant.ofInt (-1)) ∧
    (d.mainSourceFileName ≠ "" →
      ∀ content, fs (m.sysroot ++ "/" ++ d.mainSourceFileName) = Option.some content →
        (v ∈ (m.setDisassembly fs d results).validLineNumbers ↔
          ∃ l ∈ d.disassemblyLines, l.sourceCodeLine ≠ 0 ∧
            l.sourceFileName = d.mainSourceFileName ∧ l.sourceCodeLine = v)) := by
  constructor
  · have hidx2 := hidx
    simp only [SourceCodeModel.hasIndex, Bool.and_eq_true, decide_eq_true_eq] at hidx2
    obtain ⟨⟨⟨hr0, hr1⟩, hc0⟩, hc1⟩ := hidx2
    have hpv : index.parentValid = false := by
      cases hpv : index.parentValid
      · rfl
      · rw [hpv] at hr1
        simp [SourceCodeModel.rowCount] at hr1
        omega
    rw [hpv, SourceCodeModel.rowCount, if_neg (by simp)] at hr1
    have hguard : ¬ (index.row > m.numLines ∨ index.row < 0) := by omega
    simp only [SourceCodeModel.data]
    rw [if_neg (not_not_intro hidx), if_neg hguard]
  · intro h0 content hfs
    have hval : (m.setDisassembly fs d results).validLineNumbers =
        d.disassemblyLines.foldl (validStep d.mainSourceFileName) [] := by
      simp only [SourceCodeModel.setDisassembly, hfs, h0, if_false, ite_false]
      rw [foldl_lineStep_validLineNumbers]
    rw [hval, mem_foldl_validStep]
    simp

/-- Witness for C8: a concrete in-range index whose line is rainbow-valid,
and the collected line set of a concrete successful `setDisassembly`. -/
theorem rainbowLineNumber_spec_witness :
    testModel.data ⟨1, 1, false⟩ ItemRole.rainbowLineNumberRole = QVariant.ofInt 5 ∧
    3 ∈ (testModel.setDisassembly testFs goodOutput testResults).validLineNumbers := by
  have h := rainbowLineNumber_spec testModel ⟨1, 1, false⟩ testFs goodOutput
    testResults 3 (by decide)
  constructor
  · rw [h.1]
    rfl
  · exact (h.2 (by decide) _ rfl).mpr (by decide)

/-- C10: `formatTimeString` omits each of the days, hours and minutes fields
when it is zero, so distinct durations collide (3605 s and 65 s both print as
"01:05.000s"); and below one minute the output is exactly the two-digit
zero-padded seconds, a dot, the three-digit zero-padded milliseconds and
`s`. -/
theorem formatTimeString_spec :
    formatTimeString 3605000000000 = "01:05.000s" ∧
    formatTimeString 65000000000 = "01:05.000s" ∧
    (3605000000000 : Nat) ≠ 65000000000 ∧
    ∀ n : Nat, n < 60000000000 →
      formatTimeString n =
        rightJustified (qtNumber (n / 1000000000)) 2 '0' ++ "." ++
          rightJustified (qtNumber ((n / 1000000) % 1000)) 3 '0' ++ "s" := by
  refine ⟨rfl, rfl, by norm_num, ?_⟩
  intro n hn
  have hts : n / 1000000000 < 60 := by omega
  unfold formatTimeString
  have hd : n / 1000000000 / 60 / 60 / 24 = 0 := by omega
  have hh : n / 1000000000 / 60 / 60 % 24 = 0 := by omega
  have hm : n / 1000000000 / 60 % 60 = 0 := by omega
  have hs : n / 1000000000 % 60 = n / 1000000000 := by omega
  simp only [hd, hh, hm, hs, gt_iff_lt, lt_irrefl, if_false, ite_false]
  rfl

/-- Witness for C10 at a concrete sub-minute duration. -/
theorem formatTimeString_spec_witness :
    formatTimeString 59123456789 =
      rightJustified (qtNumber (59123456789 / 1000000000)) 2 '0' ++ "." ++
        rightJustified (qtNumber ((59123456789 / 1000000) % 1000)) 3 '0' ++ "s" :=
  formatTimeString_spec.2.2.2 59123456789 (by norm_num)

/-- Unfolding `foldMin` over a cons cell. -/
theorem foldMin_cons (p v : Int) (vs : List Int) :
    foldMin p (v :: vs) = foldMin (if v < p then v else p) vs := rfl

/-- Unfolding `foldMax` over a cons cell. -/
theorem foldMax_cons (p v : Int) (vs : List Int) :
    foldMax p (v :: vs) = foldMax (if v > p then v else p) vs := rfl

/-- The running minimum never exceeds its initial value. -/
theorem foldMin_le_init (vs : List Int) : ∀ p : Int, foldMin p vs ≤ p := by
  induction vs with
  | nil => intro p; exact le_refl p
  | cons v vs ih =>
    intro p
    rw [foldMin_cons]
    refine le_trans (ih _) ?_
    split_ifs with h
    · exact le_of_lt h
    · exact le_refl p

/-- The running minimum is a lower bound of the list. -/
theorem foldMin_le_mem (vs : List Int) : ∀ p v : Int, v ∈ vs → foldMin p vs ≤ v := by
  induction vs with
  | nil =>
    intro p v hv
    simp at hv
  | cons w vs ih =>
    intro p v hv
    rw [foldMin_cons]
    rcases List.mem_cons.mp hv with rfl | hv
    · refine le_trans (foldMin_le_init vs _) ?_
      split_ifs with h
      · exact le_refl v
      · exact le_of_not_lt h
    · exact ih _ v hv

/-- The running minimum is the initial value or an element of the list. -/
theorem foldMin_eq_init_or_mem (vs : List Int) :
    ∀ p : Int, foldMin p vs = p ∨ foldMin p vs ∈ vs := by
  induction vs with
  | nil => intro p; exact Or.inl rfl
  | cons w vs ih =>
    intro p
    rw [foldMin_cons]
    rcases ih (if w < p then w else p) with h | h
    · rw [h]
      split_ifs with hc
      · exact Or.inr (List.mem_cons_self _ _)
      · exact Or.inl rfl
    · exact Or.inr (List.mem_cons_of_mem _ h)

/-- The running maximum never drops below its initial value. -/
theorem le_foldMax_init (vs : List Int) : ∀ p : Int, p ≤ foldMax p vs := by
  induction vs with
  | nil => intro p; exact le_refl p
  | cons v vs ih =>
    intro p
    rw [foldMax_cons]
    refine le_trans ?_ (ih _)
    split_ifs with h
    · exact le_of_lt h
    · exact le_refl p

/-- The running maximum is an upper bound of the list. -/
theorem le_foldMax_mem (vs : List Int) : ∀ p v : Int, v ∈ vs → v ≤ foldMax p vs := by
  induction vs with
  | nil =>
    intro p v hv
    simp at hv
  | cons w vs ih =>
    intro p v hv
    rw [foldMax_cons]
    rcases List.mem_cons.mp hv with rfl | hv
    · refine le_trans ?_ (le_foldMax_init vs _)
      split_ifs with h
      · exact le_refl v
      · exact le_of_not_lt h
    · exact ih _ v hv

/-- The running maximum is the initial value or an element of the list. -/
theorem foldMax_eq_init_or_mem (vs : List Int) :
    ∀ p : Int, foldMax p vs = p ∨ foldMax p vs ∈ vs := by
  induction vs with
  | nil => intro p; exact Or.inl rfl
  | cons w vs ih =>
    intro p
    rw [foldMax_cons]
    rcases ih (if w > p then w else p) with h | h
    · rw [h]
      split_ifs with hc
      · exact Or.inr (List.mem_cons_self _ _)
      · exact Or.inl rfl
    · exact Or.inr (List.mem_cons_of_mem _ h)

/-- The `setDisassembly` min/max scan equals the `foldMax`/`foldMin` of the
matching line numbers. -/
theorem foldl_minMaxStep_eq (main : String) (ls : List DisassemblyLine) :
    ∀ p : Int × Int,
      ls.foldl (minMaxStep main) p =
        (foldMax p.1 (matchingLineNumbers main ls),
         foldMin p.2 (matchingLineNumbers main ls)) := by
  induction ls with
  | nil => intro p; rfl
  | cons l ls ih =>
    intro p
    rw [List.foldl_cons]
    by_cases h : l.sourceCodeLine = 0 ∨ l.sourceFileName ≠ main
    · have hcond : (!decide (l.sourceCodeLine = 0) && decide (l.sourceFileName = main)) = false := by
        rcases h with h | h <;> simp [h]
      have hfl : matchingLineNumbers main (l :: ls) = matchingLineNumbers main ls := by
        unfold matchingLineNumbers
        rw [List.filter_cons, hcond]
        simp
      rw [hfl, minMaxStep, if_pos h]
      exact ih p
    · push_neg at h
      have hcond : (!decide (l.sourceCodeLine = 0) && decide (l.sourceFileName = main)) = true := by
        simp [h.1, h.2]
      have hfl : matchingLineNumbers main (l :: ls) =
          l.sourceCodeLine :: matchingLineNumbers main ls := by
        unfold matchingLineNumbers
        rw [List.filter_cons, hcond]
        simp
      rw [hfl, minMaxStep, if_neg (by push_neg; exact h), ih, foldMax_cons, foldMin_cons]

/-- Membership in the matching line numbers of a disassembly. -/
theorem mem_matchingLineNumbers (main : String) (ls : List DisassemblyLine) (v : Int) :
    v ∈ matchingLineNumbers main ls ↔
      ∃ l ∈ ls, l.sourceCodeLine ≠ 0 ∧ l.sourceFileName = main ∧
        l.sourceCodeLine = v := by
  unfold matchingLineNumbers
  simp only [List.mem_map, List.mem_filter, Bool.and_eq_true, Bool.not_eq_true',
    decide_eq_false_iff_not, decide_eq_true_eq]
  constructor
  · rintro ⟨l, ⟨hl, hne, hfile⟩, hv⟩
    exact ⟨l, hl, hne, hfile, hv⟩
  · rintro ⟨l, hl, hne, hfile, hv⟩
    exact ⟨l, ⟨hl, hne, hfile⟩, hv⟩

/-- The two assertion conditions in terms of the matching line numbers: they
hold exactly when every matching value is positive and two distinct matching
values exist, provided every value fits a C++ `int`. -/
theorem foldMinMax_pos_iff (vs : List Int) (hbound : ∀ v ∈ vs, v ≤ INT_MAX) :
    (0 < foldMin INT_MAX vs ∧ foldMin INT_MAX vs < foldMax 0 vs) ↔
      ((∀ v ∈ vs, 0 < v) ∧ ∃ a ∈ vs, ∃ b ∈ vs, 0 < a ∧ 0 < b ∧ a ≠ b) := by
  constructor
  · rintro ⟨hpos, hlt⟩
    have hall : ∀ v ∈ vs, 0 < v := fun v hv =>
      lt_of_lt_of_le hpos (foldMin_le_mem vs INT_MAX v hv)
    refine ⟨hall, ?_⟩
    rcases foldMax_eq_init_or_mem vs 0 with hmax | hmax
    · rw [hmax] at hlt
      exact absurd (lt_trans hpos hlt) (lt_irrefl 0)
    · rcases foldMin_eq_init_or_mem vs INT_MAX with hmin | hmin
      · rw [hmin] at hlt
        exact absurd hlt (not_lt.mpr (hbound _ hmax))
      · exact ⟨_, hmin, _, hmax, hall _ hmin, hall _ hmax, ne_of_lt hlt⟩
  · rintro ⟨hall, a, ha, b, hb, hapos, hbpos, hab⟩
    refine ⟨?_, ?_⟩
    · rcases foldMin_eq_init_or_mem vs INT_MAX with hmin | hmin
      · rw [hmin]
        norm_num [INT_MAX]
      · exact hall _ hmin
    · rcases lt_or_gt_of_ne hab with h | h
      · exact lt_of_le_of_lt (foldMin_le_mem vs INT_MAX a ha)
          (lt_of_lt_of_le h (le_foldMax_mem vs 0 b hb))
      · exact lt_of_le_of_lt (foldMin_le_mem vs INT_MAX b hb)
          (lt_of_lt_of_le h (le_foldMax_mem vs 0 a ha))

/-- Counterexample to C4 as stated: `ceOutput` contains two lines of the main
source file with distinct positive line numbers (1 and 2), yet the assertion
`minLineNumber > 0` fails, because a third matching line carries the (nonzero,
non-skipped) line number -5, which the loop feeds into the minimum. -/
theorem setDisassemblyAssertions_counterexample :
    twoDistinctPositiveLines ceOutput ∧ setDisassemblyAssertions ceOutput = false :=
  ⟨by unfold twoDistinctPositiveLines; decide, by decide⟩

/-- C4 (amended): after the `setDisassembly` loop the assertions
`minLineNumber > 0` and `minLineNumber < maxLineNumber` hold if and only if
every disassembly line of the main source file with nonzero `sourceCodeLine`
has a positive one, and at least two such lines carry distinct (positive)
line numbers; line numbers are assumed to fit a C++ `int`. -/
theorem setDisassemblyAssertions_iff (d : DisassemblyOutput)
    (hbound : ∀ l ∈ d.disassemblyLines, l.sourceCodeLine ≤ INT_MAX) :
    setDisassemblyAssertions d = true ↔
      ((∀ l ∈ d.disassemblyLines, l.sourceFileName = d.mainSourceFileName →
          l.sourceCodeLine ≠ 0 → 0 < l.sourceCodeLine) ∧
        twoDistinctPositiveLines d) := by
  have hbound2 : ∀ v ∈ matchingLineNumbers d.mainSourceFileName d.disassemblyLines,
      v ≤ INT_MAX := by
    intro v hv
    obtain ⟨l, hl, -, -, hlv⟩ := (mem_matchingLineNumbers _ _ _).mp hv
    exact hlv ▸ hbound l hl
  simp only [setDisassemblyAssertions, scanMinMax, Bool.and_eq_true, decide_eq_true_eq]
  rw [foldl_minMaxStep_eq]
  rw [show ((foldMax 0 (matchingLineNumbers d.mainSourceFileName d.disassemblyLines),
      foldMin INT_MAX (matchingLineNumbers d.mainSourceFileName d.disassemblyLines)).2 > 0 ∧
      (foldMax 0 (matchingLineNumbers d.mainSourceFileName d.disassemblyLines),
      foldMin INT_MAX (matchingLineNumbers d.mainSourceFileName d.disassemblyLines)).2 <
      (foldMax 0 (matchingLineNumbers d.mainSourceFileName d.disassemblyLines),
      foldMin INT_MAX (matchingLineNumbers d.mainSourceFileName d.disassemblyLines)).1) =
      (0 < foldMin INT_MAX (matchingLineNumbers d.mainSourceFileName d.disassemblyLines) ∧
       foldMin INT_MAX (matchingLineNumbers d.mainSourceFileName d.disassemblyLines) <
       foldMax 0 (matchingLineNumbers d.mainSourceFileName d.disassemblyLines)) from rfl]
  rw [foldMinMax_pos_iff _ hbound2]
  constructor
  · rintro ⟨hall, a, ha, b, hb, hapos, hbpos, hab⟩
    obtain ⟨l1, hl1, h1ne, h1file, h1v⟩ := (mem_matchingLineNumbers _ _ _).mp ha
    obtain ⟨l2, hl2, h2ne, h2file, h2v⟩ := (mem_matchingLineNumbers _ _ _).mp hb
    refine ⟨?_, l1, hl1, l2, hl2, h1file, h2file, h1v ▸ hapos, h2v ▸ hbpos, ?_⟩
    · intro l hl hfile hne
      exact hall _ ((mem_matchingLineNumbers _ _ _).mpr ⟨l, hl, hne, hfile, rfl⟩)
    · rw [h1v, h2v]
      exact hab
  · rintro ⟨hall, l1, hl1, l2, hl2, hf1, hf2, hp1, hp2, hne⟩
    constructor
    · intro v hv
      obtain ⟨l, hl, hlne, hlf, hlv⟩ := (mem_matchingLineNumbers _ _ _).mp hv
      exact hlv ▸ hall l hl hlf hlne
    · exact ⟨l1.sourceCodeLine,
        (mem_matchingLineNumbers _ _ _).mpr ⟨l1, hl1, ne_of_gt hp1, hf1, rfl⟩,
        l2.sourceCodeLine,
        (mem_matchingLineNumbers _ _ _).mpr ⟨l2, hl2, ne_of_gt hp2, hf2, rfl⟩,
        hp1, hp2, hne⟩

/-- Witness for C4 (amended) at a concrete disassembly: `goodOutput` has the
two distinct positive matching lines 3 and 5 and no other matching nonzero
lines, so the assertions hold. -/
theorem setDisassemblyAssertions_iff_witness :
    setDisassemblyAssertions goodOutput = true :=
  (setDisassemblyAssertions_iff goodOutput (by decide)).mpr
    ⟨by decide, by unfold twoDistinctPositiveLines; decide⟩

/-- C2: when the main source file name is empty or the file at
`m_sysroot / mainSourceFileName` cannot be opened, `setDisassembly` returns
with `m_numLines = 0` and both cost tables reset to empty (so `rowCount` for
the root parent is 0), while the text document, `m_validLineNumbers` and
`m_mainSourceFileName` keep their previous values. -/
theorem setDisassembly_earlyReturn_spec (m : SourceCodeModel)
    (fs : String → Option String) (d : DisassemblyOutput)
    (results : CallerCalleeResults)
    (h : d.mainSourceFileName = "" ∨
         fs (m.sysroot ++ "/" ++ d.mainSourceFileName) = Option.none) :
    (m.setDisassembly fs d results).numLines = 0 ∧
    (m.setDisassembly fs d results).selfCosts = Costs.empty ∧
    (m.setDisassembly fs d results).inclusiveCosts = Costs.empty ∧
    (m.setDisassembly fs d results).rowCount false = 0 ∧
    (m.setDisassembly fs d results).document = m.document ∧
    (m.setDisassembly fs d results).validLineNumbers = m.validLineNumbers ∧
    (m.setDisassembly fs d results).mainSourceFileName = m.mainSourceFileName := by
  have hval : m.setDisassembly fs d results =
      { m with selfCosts := Costs.empty, inclusiveCosts := Costs.empty,
               numLines := 0 } := by
    rcases h with h | h
    · unfold SourceCodeModel.setDisassembly
      rw [if_pos h]
    · by_cases h0 : d.mainSourceFileName = ""
      · unfold SourceCodeModel.setDisassembly
        rw [if_pos h0]
      · unfold SourceCodeModel.setDisassembly
        rw [if_neg h0, h]
  rw [hval]
  exact ⟨rfl, rfl, rfl, rfl, rfl, rfl, rfl⟩

/-- Witness for C2: a file system without the requested file. -/
theorem setDisassembly_earlyReturn_spec_witness :
    (testModel.setDisassembly (fun _ => Option.none) goodOutput testResults).numLines = 0 ∧
    (testModel.setDisassembly (fun _ => Option.none) goodOutput testResults).document =
      testModel.document :=
  ⟨(setDisassembly_earlyReturn_spec testModel (fun _ => Option.none) goodOutput
      testResults (Or.inr rfl)).1,
   (setDisassembly_earlyReturn_spec testModel (fun _ => Option.none) goodOutput
      testResults (Or.inr rfl)).2.2.2.2.1⟩
